import Mathlib

/-!
Verification of the invoice calculation engine and rate-modifier controllers
of the Invio freelancer invoicing application.

Numbers are modelled as exact rationals (ℚ).  The JavaScript helpers are
embedded as follows:
* `Math.round(x)` (round half toward +∞) becomes `jsRound`;
* `r2 n = Math.round(n * 100) / 100` becomes `r2`;
* a JS falsy-or default `x || d` on numbers becomes `jsOr x d`
  (`0` is falsy, every other number is truthy);
* an optional numeric field with falsy-or default becomes `numOr`;
* a JS division, which yields `Infinity`/`NaN` on a zero divisor, is
  modelled by `safeDiv : ℚ → ℚ → Option ℚ` where `none` stands for the
  non-finite result; the pure functions use plain `/` at sites whose
  divisor the source guards.
-/

/-- JS `Math.round`: round half toward positive infinity. -/
def jsRound (q : ℚ) : ℤ := ⌊q + 1/2⌋

/-- `r2` from the source: `Math.round(n * 100) / 100`. -/
def r2 (n : ℚ) : ℚ := (jsRound (n * 100) : ℚ) / 100

/-- JS `x || d` for a number `x`: `0` is falsy. -/
def jsOr (x d : ℚ) : ℚ := if x = 0 then d else x

/-- JS `x || d` for an optional number `x`: `undefined` and `0` are falsy. -/
def numOr (x : Option ℚ) (d : ℚ) : ℚ :=
  match x with
  | none => d
  | some v => jsOr v d

/-- JS division with a `none` result standing for `Infinity`/`NaN`
(zero divisor). -/
def safeDiv (a b : ℚ) : Option ℚ := if b = 0 then none else some (a / b)

/-- A rational that is a whole number of cents. -/
def Cent (q : ℚ) : Prop := ∃ k : ℤ, q = (k : ℚ) / 100

/-- JS `reduce((a, b) => a + b, 0)`, the subtotal of a list of amounts. -/
def subtotalQ (l : List ℚ) : ℚ := l.foldl (· + ·) 0

/-! ### Data model

`Item` is the `{quantity, unitPrice}` shape consumed by
`calculateInvoiceTotals` (src/backend/src/database/init.ts); `ItemInput`
additionally carries the per-line tax percents consumed by
`calculatePerLineTotals`.  On ℚ the source's `Number(x) || 0` coercions are
the identity, so they are not reproduced at each use site. -/

structure Item where
  quantity : ℚ
  unitPrice : ℚ
deriving DecidableEq

structure ItemInput where
  quantity : ℚ
  unitPrice : ℚ
  taxes : List ℚ
deriving DecidableEq

structure CalculatedTotals where
  subtotal : ℚ
  discountAmount : ℚ
  taxAmount : ℚ
  total : ℚ
deriving DecidableEq

inductive RoundingMode where
  | line
  | total
deriving DecidableEq

/-- Line-item valuation for time-based billing,
`calculateTimeBasedLineTotal` (init.ts:490-507):
`r2((rate || 0) * (hours || 0) * (modifierMultiplier || 1) +
(distance || 0) * (mileageRate || 0))`. -/
def calculateTimeBasedLineTotal (rate hours modifierMultiplier : ℚ)
    (distance mileageRate : Option ℚ) : ℚ :=
  let basePay := jsOr rate 0 * jsOr hours 0 * jsOr modifierMultiplier 1
  let mileage := numOr distance 0 * numOr mileageRate 0
  r2 (basePay + mileage)

/-- A stored rate modifier row (id, multiplier, is_default flag; the other
columns play no role in the claims). -/
structure RateModifier where
  id : ℕ
  multiplier : ℚ
  isDefault : Bool
deriving DecidableEq

/-- Resolution of a line item's `rateModifierId` to a multiplier as in
`createInvoice`/`updateInvoice` (part_007:2118-2128, 2701-2712): start from
1.0; if an id is present and a row is found, use `Number(multiplier) || 1.0`. -/
def resolveModifierMultiplier (mods : List RateModifier) (rid : Option ℕ) : ℚ :=
  match rid with
  | none => 1
  | some i =>
    match mods.find? (fun m => decide (m.id = i)) with
    | none => 1
    | some m => jsOr m.multiplier 1

/-- Discount resolution and clamp shared by `calculateInvoiceTotals`
(init.ts:528-534), `calculatePerLineTotals` (part_007:1874-1878) and the
re-derivation passes (part_007:2219-2223, 2802-2807):
percentage overrides the flat amount when positive, then clamp to
`[0, subtotal]` via `min(max(d, 0), subtotal)`. -/
def finalDiscount (subtotal discountPercentage discountAmount : ℚ) : ℚ :=
  let d := if 0 < discountPercentage then subtotal * (discountPercentage / 100)
           else discountAmount
  min (max d 0) subtotal

/-- Proportional per-line discount distribution of `calculateInvoiceTotals`
(init.ts:541-551): each non-last line gets `r2(fd * g/subtotal)` which is
accumulated into `distributed`; the last line gets `r2(fd - distributed)`.
This branch of the source runs only when `subtotal > 0`. -/
def lineDiscountsAux (fd subtotal : ℚ) : ℚ → List ℚ → List ℚ
  | _, [] => []
  | distributed, [_] => [r2 (fd - distributed)]
  | distributed, g :: rest@(_ :: _) =>
    let d := r2 (fd * (g / subtotal))
    d :: lineDiscountsAux fd subtotal (distributed + d) rest

def lineDiscounts (fd subtotal : ℚ) (gs : List ℚ) : List ℚ :=
  lineDiscountsAux fd subtotal 0 gs

/-- Option-valued variant of `lineDiscountsAux` in which the share division
is a `safeDiv`; used to state that the `subtotal > 0` branch guard protects
the division. -/
def lineDiscountsSafeAux (fd subtotal : ℚ) : ℚ → List ℚ → Option (List ℚ)
  | _, [] => some []
  | distributed, [_] => some [r2 (fd - distributed)]
  | distributed, g :: rest@(_ :: _) =>
    match safeDiv g subtotal with
    | none => none
    | some q =>
      let d := r2 (fd * q)
      (lineDiscountsSafeAux fd subtotal (distributed + d) rest).map (d :: ·)

def lineDiscountsSafe (fd subtotal : ℚ) (gs : List ℚ) : Option (List ℚ) :=
  lineDiscountsSafeAux fd subtotal 0 gs

/-- Per-line discount distribution of `calculatePerLineTotals`
(part_007:1880-1891): identical to `lineDiscountsAux` except that a line's
share is `0` when `subtotal === 0` (checked before the division and before
updating `distributed`). -/
def lineDiscountsZAux (fd subtotal : ℚ) : ℚ → List ℚ → List ℚ
  | _, [] => []
  | distributed, [_] => [if subtotal = 0 then 0 else r2 (fd - distributed)]
  | distributed, g :: rest@(_ :: _) =>
    if subtotal = 0 then 0 :: lineDiscountsZAux fd subtotal distributed rest
    else
      let d := r2 (fd * (g / subtotal))
      d :: lineDiscountsZAux fd subtotal (distributed + d) rest

def lineDiscountsZ (fd subtotal : ℚ) (gs : List ℚ) : List ℚ :=
  lineDiscountsZAux fd subtotal 0 gs

/-- Option-valued variant of `lineDiscountsZAux` with `safeDiv`. -/
def lineDiscountsZSafeAux (fd subtotal : ℚ) : ℚ → List ℚ → Option (List ℚ)
  | _, [] => some []
  | distributed, [_] => some [if subtotal = 0 then 0 else r2 (fd - distributed)]
  | distributed, g :: rest@(_ :: _) =>
    if subtotal = 0 then
      (lineDiscountsZSafeAux fd subtotal distributed rest).map (0 :: ·)
    else
      match safeDiv g subtotal with
      | none => none
      | some q =>
        let d := r2 (fd * q)
        (lineDiscountsZSafeAux fd subtotal (distributed + d) rest).map (d :: ·)

def lineDiscountsZSafe (fd subtotal : ℚ) (gs : List ℚ) : Option (List ℚ) :=
  lineDiscountsZSafeAux fd subtotal 0 gs

/-- Tax extraction used by `calculateInvoiceTotals` (init.ts:561, 577):
`net = rate > 0 ? afterDiscount / (1 + rate) : afterDiscount`. -/
def invoiceNet (rate afterDiscount : ℚ) : ℚ :=
  if 0 < rate then afterDiscount / (1 + rate) else afterDiscount

/-- Option-valued variant of `invoiceNet` with `safeDiv`. -/
def invoiceNetSafe (rate afterDiscount : ℚ) : Option ℚ :=
  if 0 < rate then safeDiv afterDiscount (1 + rate) else some afterDiscount

/-- Net amount used by `calculatePerLineTotals` (part_007:1905-1908):
divide out `(1 + rateSum)` only when `pricesIncludeTax && rateSum > 0`. -/
def perLineNet (pricesIncludeTax : Bool) (rateSum afterDiscount : ℚ) : ℚ :=
  if pricesIncludeTax = true ∧ 0 < rateSum then afterDiscount / (1 + rateSum)
  else afterDiscount

/-- Option-valued variant of `perLineNet` with `safeDiv`. -/
def perLineNetSafe (pricesIncludeTax : Bool) (rateSum afterDiscount : ℚ) : Option ℚ :=
  if pricesIncludeTax = true ∧ 0 < rateSum then safeDiv afterDiscount (1 + rateSum)
  else some afterDiscount

/-- Post-discount amount of one line (init.ts:558):
`Math.max(0, gross - lineDiscount)`. -/
def lineAfter (gross lineDiscount : ℚ) : ℚ := max 0 (gross - lineDiscount)

/-- One line's contribution to `sumTax` in the line-rounding loop of
`calculateInvoiceTotals` (init.ts:555-570). -/
def lineTaxContrib (rate : ℚ) (pricesIncludeTax : Bool) (gross lineDiscount : ℚ) : ℚ :=
  let a := lineAfter gross lineDiscount
  if pricesIncludeTax then r2 (a - invoiceNet rate a) else r2 (a * rate)

/-- One line's contribution to `sumTotal` in the same loop. -/
def lineTotalContrib (rate : ℚ) (pricesIncludeTax : Bool) (gross lineDiscount : ℚ) : ℚ :=
  let a := lineAfter gross lineDiscount
  if pricesIncludeTax then r2 a else r2 (a + r2 (a * rate))

/-- `calculateInvoiceTotals` (init.ts:509-592).  The source's single `for`
loop accumulates the two independent sums `sumTax` and `sumTotal`; they are
rendered as two folds over the same `(gross, lineDiscount)` pairs. -/
def calculateInvoiceTotals (items : List Item)
    (discountPercentage discountAmount taxRate : ℚ)
    (pricesIncludeTax : Bool) (roundingMode : RoundingMode) : CalculatedTotals :=
  let rate := max 0 taxRate / 100
  let lineGrosses := items.map (fun it => it.quantity * it.unitPrice)
  let subtotal := subtotalQ lineGrosses
  let fd := finalDiscount subtotal discountPercentage discountAmount
  if roundingMode = RoundingMode.line ∧ 0 < subtotal then
    let lds := lineDiscounts fd subtotal lineGrosses
    let pairs := lineGrosses.zip lds
    let sumTax := pairs.foldl (fun a p => a + lineTaxContrib rate pricesIncludeTax p.1 p.2) 0
    let sumTotal := pairs.foldl (fun a p => a + lineTotalContrib rate pricesIncludeTax p.1 p.2) 0
    ⟨r2 subtotal, r2 fd, r2 sumTax, r2 sumTotal⟩
  else
    let afterDiscount := subtotal - fd
    if pricesIncludeTax then
      let net := invoiceNet rate afterDiscount
      ⟨r2 subtotal, r2 fd, r2 (afterDiscount - net), r2 afterDiscount⟩
    else
      let taxAmount := r2 (afterDiscount * rate)
      ⟨r2 subtotal, r2 fd, taxAmount, r2 (afterDiscount + taxAmount)⟩

/-- The totals re-derivation pass of `createInvoice` (part_007:2216-2253)
and `updateInvoice` (part_007:2799-2835): recompute totals from the
persisted per-line `lineTotal` values.  The tax-inclusive branch divides by
`1 + taxRate/100` with no guard, hence the `Option` result.  The rounding
mode is not consulted. -/
def recalcTotalsFromLineTotals (lineTotals : List ℚ)
    (discountPercentage discountAmount taxRate : ℚ)
    (pricesIncludeTax : Bool) : Option CalculatedTotals :=
  let subtotal := subtotalQ lineTotals
  let fd := finalDiscount subtotal discountPercentage discountAmount
  let afterDiscount := subtotal - fd
  if pricesIncludeTax then
    let divisor := 1 + taxRate / 100
    match safeDiv afterDiscount divisor with
    | none => none
    | some q => some ⟨r2 subtotal, r2 fd, r2 (afterDiscount - q), r2 afterDiscount⟩
  else
    let taxAmount := afterDiscount * (taxRate / 100)
    some ⟨r2 subtotal, r2 fd, r2 taxAmount, r2 (afterDiscount + taxAmount)⟩

/-- Persisted `lineTotal` of a quantity-based line
(part_007:2149, 2731): `(quantity ?? 0) * (unitPrice ?? 0)`. -/
def lineTotalsOf (items : List Item) : List ℚ :=
  items.map (fun it => it.quantity * it.unitPrice)

/-! ### calculatePerLineTotals (part_007:1861-1949) -/

structure PerItemCalc where
  taxable : ℚ
  taxes : List (ℚ × ℚ)
deriving DecidableEq

structure PerLineCalc where
  subtotal : ℚ
  discountAmount : ℚ
  taxAmount : ℚ
  total : ℚ
  perItem : List PerItemCalc
  summary : List (ℚ × ℚ × ℚ)
deriving DecidableEq

/-- JS `Map.get(key) || default` on the per-percent summary map,
represented as an insertion-ordered association list. -/
def summaryGet : List (ℚ × ℚ × ℚ) → ℚ → ℚ × ℚ
  | [], _ => (0, 0)
  | e :: rest, key => if e.1 = key then e.2 else summaryGet rest key

/-- JS `Map.set(key, v)`: update in place, or append a new key. -/
def summarySet : List (ℚ × ℚ × ℚ) → ℚ → ℚ × ℚ → List (ℚ × ℚ × ℚ)
  | [], key, v => [(key, v)]
  | e :: rest, key, v =>
    if e.1 = key then (key, v) :: rest else e :: summarySet rest key v

/-- Inner loop over one line's tax percents (part_007:1912-1920): build the
`itemTaxes` list and fold the summary map. -/
def taxFold (net : ℚ) : List (ℚ × ℚ) × List (ℚ × ℚ × ℚ) → List ℚ →
    List (ℚ × ℚ) × List (ℚ × ℚ × ℚ)
  | acc, [] => acc
  | acc, percent :: rest =>
    let p := percent / 100
    let amt := r2 (net * p)
    let key := r2 (p * 100)
    let s := summaryGet acc.2 key
    let s2 := (r2 (s.1 + net), r2 (s.2 + amt))
    taxFold net (acc.1 ++ [(key, amt)], summarySet acc.2 key s2) rest

/-- Loop state of `calculatePerLineTotals` (part_007:1893-1931). -/
structure PLState where
  perItem : List PerItemCalc
  taxAmount : ℚ
  total : ℚ
  summaryMap : List (ℚ × ℚ × ℚ)

/-- Body of the per-item loop of `calculatePerLineTotals`
(part_007:1898-1931). -/
def perLineStep (pricesIncludeTax : Bool) (st : PLState) (p : ItemInput × ℚ) : PLState :=
  let gross := p.1.quantity * p.1.unitPrice
  let afterDiscount := lineAfter gross p.2
  let rateSum := subtotalQ p.1.taxes / 100
  let net := perLineNet pricesIncludeTax rateSum afterDiscount
  let res := taxFold net ([], st.summaryMap) p.1.taxes
  let itemTaxSum := r2 (res.1.foldl (fun a b => a + b.2) 0)
  { perItem := st.perItem ++ [⟨r2 net, res.1⟩]
    taxAmount := r2 (st.taxAmount + itemTaxSum)
    total := if pricesIncludeTax then r2 (st.total + afterDiscount)
             else r2 (st.total + net + itemTaxSum)
    summaryMap := res.2 }

/-- Stable insertion used to model the final
`sort((a, b) => a.percent - b.percent)` (part_007:1933-1939). -/
def insertByPercent (e : ℚ × ℚ × ℚ) : List (ℚ × ℚ × ℚ) → List (ℚ × ℚ × ℚ)
  | [] => [e]
  | f :: rest => if e.1 < f.1 then e :: f :: rest else f :: insertByPercent e rest

def sortByPercent : List (ℚ × ℚ × ℚ) → List (ℚ × ℚ × ℚ)
  | [] => []
  | e :: rest => insertByPercent e (sortByPercent rest)

/-- `calculatePerLineTotals` (part_007:1861-1949).  The `_roundingMode`
parameter is ignored by the source and omitted here. -/
def calculatePerLineTotals (items : List ItemInput)
    (discountPercentage discountAmount : ℚ) (pricesIncludeTax : Bool) : PerLineCalc :=
  let lineGrosses := items.map (fun it => it.quantity * it.unitPrice)
  let subtotal := subtotalQ lineGrosses
  let fd := finalDiscount subtotal discountPercentage discountAmount
  let lds := lineDiscountsZ fd subtotal lineGrosses
  let st := (items.zip lds).foldl (perLineStep pricesIncludeTax) ⟨[], 0, 0, []⟩
  { subtotal := r2 subtotal
    discountAmount := r2 fd
    taxAmount := r2 st.taxAmount
    total := r2 st.total
    perItem := st.perItem
    summary := sortByPercent (st.summaryMap.map (fun e => (e.1, r2 e.2.1, r2 e.2.2))) }

/-! ### Rate-modifier controller (src/backend/src/controllers/rate_modifiers.ts)

The stored `rate_modifiers` table is a list of rows; `usage` is the list of
`rate_modifier_id` references held by `invoice_items` rows. -/

def findModifier (ms : List RateModifier) (i : ℕ) : Option RateModifier :=
  ms.find? (fun m => decide (m.id = i))

/-- SQL `UPDATE rate_modifiers SET is_default = 0`. -/
def unsetAllDefaults (ms : List RateModifier) : List RateModifier :=
  ms.map (fun m => { m with isDefault := false })

/-- `createRateModifier` (rate_modifiers.ts:42-81): when the new row is
default, unset all other defaults first, then insert. -/
def createRateModifier (ms : List RateModifier) (newId : ℕ) (multiplier : ℚ)
    (isDefault : Bool) : List RateModifier :=
  let ms1 := if isDefault then unsetAllDefaults ms else ms
  ms1 ++ [⟨newId, multiplier, isDefault⟩]

/-- `updateRateModifier` (rate_modifiers.ts:83-119): no-op when the id is
unknown; otherwise resolve the new field values against the existing row,
unset all defaults when newly becoming default, then update the row. -/
def updateRateModifier (ms : List RateModifier) (i : ℕ)
    (newMultiplier : Option ℚ) (newIsDefault : Option Bool) : List RateModifier :=
  match findModifier ms i with
  | none => ms
  | some existing =>
    let multiplier := newMultiplier.getD existing.multiplier
    let isDefault := newIsDefault.getD existing.isDefault
    let ms1 := if isDefault && !existing.isDefault then unsetAllDefaults ms else ms
    ms1.map (fun m => if m.id = i then { m with multiplier := multiplier, isDefault := isDefault } else m)

/-- `deleteRateModifier` (rate_modifiers.ts:121-150): error when the id is
unknown, when the row is flagged default, or when invoice items reference
it; otherwise delete the row.  All checks precede the `DELETE`, so on error
the stored rows are untouched (reflected here by the `Except` model
returning no new state). -/
def deleteRateModifier (ms : List RateModifier) (usage : List ℕ) (i : ℕ) :
    Except String (List RateModifier) :=
  match findModifier ms i with
  | none => Except.error "Rate modifier not found"
  | some m =>
    if m.isDefault then
      Except.error "Cannot delete the default rate modifier. Set another modifier as default first."
    else if 0 < usage.countP (fun u => decide (u = i)) then
      Except.error "Cannot delete rate modifier: invoice item(s) are using it."
    else
      Except.ok (ms.filter (fun m2 => decide (m2.id ≠ i)))

/-- Exactly one stored modifier is flagged default. -/
def exactlyOneDefault (ms : List RateModifier) : Prop :=
  ms.countP (fun m => m.isDefault) = 1

/-- The modifier is flagged default and no other stored modifier is. -/
def isSoleDefault (ms : List RateModifier) (m : RateModifier) : Prop :=
  m.isDefault = true ∧ ∀ m2 ∈ ms, m2.isDefault = true → m2 = m

/-- Non-negativity invariant carried through the per-item loop of
`calculatePerLineTotals`: the running tax amount, every recorded per-item
tax amount, and every summary-map accumulator are non-negative. -/
def PLInv (st : PLState) : Prop :=
  0 ≤ st.taxAmount
  ∧ (∀ pi ∈ st.perItem, ∀ t ∈ pi.taxes, 0 ≤ t.2)
  ∧ (∀ e ∈ st.summaryMap, 0 ≤ e.2.1 ∧ 0 ≤ e.2.2)

/-! ### Rounding and sum lemmas -/

theorem cent_r2 (x : ℚ) : Cent (r2 x) := ⟨jsRound (x * 100), rfl⟩

theorem cent_zero : Cent 0 := ⟨0, by norm_num⟩

theorem cent_add {a b : ℚ} (ha : Cent a) (hb : Cent b) : Cent (a + b) := by
  obtain ⟨k, hk⟩ := ha
  obtain ⟨l, hl⟩ := hb
  exact ⟨k + l, by push_cast [hk, hl]; ring⟩

theorem cent_neg {a : ℚ} (ha : Cent a) : Cent (-a) := by
  obtain ⟨k, hk⟩ := ha
  exact ⟨-k, by push_cast [hk]; ring⟩

theorem jsRound_intCast_add (k : ℤ) (x : ℚ) : jsRound ((k : ℚ) + x) = k + jsRound x := by
  unfold jsRound
  rw [add_assoc, Int.floor_int_add]

theorem r2_cent_add {c : ℚ} (hc : Cent c) (x : ℚ) : r2 (c + x) = c + r2 x := by
  obtain ⟨k, hk⟩ := hc
  subst hk
  unfold r2
  have h : ((k : ℚ) / 100 + x) * 100 = (k : ℚ) + x * 100 := by ring
  rw [h, jsRound_intCast_add]
  push_cast
  ring

theorem r2_zero : r2 0 = 0 := by norm_num [r2, jsRound]

theorem r2_of_cent {c : ℚ} (hc : Cent c) : r2 c = c := by
  have h := r2_cent_add hc 0
  rw [add_zero, r2_zero, add_zero] at h
  exact h

theorem r2_r2 (x : ℚ) : r2 (r2 x) = r2 x := r2_of_cent (cent_r2 x)

theorem r2_sub_cent {c : ℚ} (hc : Cent c) (x : ℚ) : r2 (x - c) = r2 x - c := by
  have h := r2_cent_add (cent_neg hc) x
  have h2 : -c + x = x - c := by ring
  rw [h2] at h
  rw [h]
  ring

theorem r2_add_cent {c : ℚ} (hc : Cent c) (x : ℚ) : r2 (c + x) = c + r2 x :=
  r2_cent_add hc x

theorem abs_r2_sub_le (x : ℚ) : |r2 x - x| ≤ 1 / 200 := by
  unfold r2 jsRound
  set y := x * 100 with hy
  have h1 : (⌊y + 1/2⌋ : ℚ) ≤ y + 1/2 := Int.floor_le _
  have h2 : y + 1/2 - 1 < (⌊y + 1/2⌋ : ℚ) := Int.sub_one_lt_floor _
  rw [abs_le]
  constructor
  · have : x = y / 100 := by rw [hy]; ring
    rw [this]
    nlinarith
  · have : x = y / 100 := by rw [hy]; ring
    rw [this]
    nlinarith

theorem r2_le_add (x : ℚ) : r2 x ≤ x + 1 / 200 := by
  have h := abs_r2_sub_le x
  rw [abs_le] at h
  linarith [h.2]

theorem r2_ge_sub (x : ℚ) : x - 1 / 200 ≤ r2 x := by
  have h := abs_r2_sub_le x
  rw [abs_le] at h
  linarith [h.1]

theorem r2_nonneg {x : ℚ} (hx : 0 ≤ x) : 0 ≤ r2 x := by
  unfold r2 jsRound
  have h : (0 : ℤ) ≤ ⌊x * 100 + 1/2⌋ := by
    apply Int.le_floor.2
    push_cast
    nlinarith
  have h2 : (0 : ℚ) ≤ ((⌊x * 100 + 1/2⌋ : ℤ) : ℚ) := by exact_mod_cast h
  linarith

theorem r2_mono {x y : ℚ} (h : x ≤ y) : r2 x ≤ r2 y := by
  unfold r2 jsRound
  have hf : ⌊x * 100 + 1/2⌋ ≤ ⌊y * 100 + 1/2⌋ := by
    apply Int.floor_le_floor
    nlinarith
  have : ((⌊x * 100 + 1/2⌋ : ℤ) : ℚ) ≤ ((⌊y * 100 + 1/2⌋ : ℤ) : ℚ) := by exact_mod_cast hf
  linarith

theorem foldl_add_eq_sum (l : List ℚ) (a : ℚ) : l.foldl (· + ·) a = a + l.sum := by
  induction l generalizing a with
  | nil => simp
  | cons x xs ih => simp [List.foldl_cons, ih (a + x), List.sum_cons]; ring

theorem subtotalQ_eq_sum (l : List ℚ) : subtotalQ l = l.sum := by
  unfold subtotalQ
  rw [foldl_add_eq_sum]
  ring

theorem subtotalQ_nonneg {l : List ℚ} (h : ∀ x ∈ l, 0 ≤ x) : 0 ≤ subtotalQ l := by
  rw [subtotalQ_eq_sum]
  exact List.sum_nonneg h

theorem foldl_addf_eq_sum {α : Type} (f : α → ℚ) (l : List α) (a : ℚ) :
    l.foldl (fun acc x => acc + f x) a = a + (l.map f).sum := by
  induction l generalizing a with
  | nil => simp
  | cons x xs ih => simp [List.foldl_cons, ih (a + f x)]; ring

theorem jsOr_zero (x : ℚ) : jsOr x 0 = x := by
  unfold jsOr
  split <;> simp_all

theorem jsOr_ne_zero {x : ℚ} (h : x ≠ 0) (d : ℚ) : jsOr x d = x := by
  simp [jsOr, h]

theorem jsOr_one_ne_zero (x : ℚ) : jsOr x 1 ≠ 0 := by
  unfold jsOr
  split <;> simp_all

theorem numOr_zero_getD (x : Option ℚ) : numOr x 0 = x.getD 0 := by
  cases x with
  | none => rfl
  | some v => simp [numOr, jsOr_zero]

theorem resolveModifierMultiplier_ne_zero (mods : List RateModifier) (rid : Option ℕ) :
    resolveModifierMultiplier mods rid ≠ 0 := by
  cases rid with
  | none => simp [resolveModifierMultiplier]
  | some i =>
    cases h : mods.find? (fun m => decide (m.id = i)) with
    | none => simp [resolveModifierMultiplier, h]
    | some m =>
      simp only [resolveModifierMultiplier, h]
      exact jsOr_one_ne_zero m.multiplier

/-! ### C3: time-based line valuation -/

/-- C3: a time-based line's gross amount is
`r2(rate * hours * multiplier + distance * mileageRate)` where the
multiplier resolved from `rateModifierId` defaults to 1.0 for an absent or
unknown id and an absent distance or mileage rate contributes 0; in
particular rate=50, hours=2.5, multiplier=1.5, distance=30,
mileageRate=0.70 yields exactly 208.50. -/
theorem C3_time_based_line_valuation :
    (∀ (mods : List RateModifier) (rid : Option ℕ) (rate hours : ℚ)
        (distance mileageRate : Option ℚ), 0 < hours →
      calculateTimeBasedLineTotal rate hours (resolveModifierMultiplier mods rid)
          distance mileageRate
        = r2 (rate * hours * resolveModifierMultiplier mods rid
              + distance.getD 0 * mileageRate.getD 0))
    ∧ (∀ mods, resolveModifierMultiplier mods none = 1)
    ∧ (∀ mods i, findModifier mods i = none →
        resolveModifierMultiplier mods (some i) = 1)
    ∧ calculateTimeBasedLineTotal 50 (5/2) (3/2) (some 30) (some (7/10)) = 208.5 := by
  refine ⟨?_, ?_, ?_, ?_⟩
  · intro mods rid rate hours distance mileageRate _
    unfold calculateTimeBasedLineTotal
    rw [jsOr_zero, jsOr_zero, numOr_zero_getD, numOr_zero_getD,
      jsOr_ne_zero (resolveModifierMultiplier_ne_zero mods rid)]
  · intro mods
    rfl
  · intro mods i h
    unfold findModifier at h
    simp [resolveModifierMultiplier, h]
  · unfold calculateTimeBasedLineTotal numOr jsOr
    norm_num [r2, jsRound]

/-- Witness for C3 at rate=50, hours=2.5, a resolved Holiday modifier 1.5,
distance=30, mileageRate=0.70. -/
theorem C3_witness :
    calculateTimeBasedLineTotal 50 (5/2)
        (resolveModifierMultiplier [⟨7, 3/2, false⟩] (some 7)) (some 30) (some (7/10))
      = r2 (50 * (5/2) * resolveModifierMultiplier [⟨7, 3/2, false⟩] (some 7)
            + (some (30:ℚ)).getD 0 * (some ((7:ℚ)/10)).getD 0) :=
  C3_time_based_line_valuation.1 [⟨7, 3/2, false⟩] (some 7) 50 (5/2) (some 30)
    (some (7/10)) (by norm_num)

/-! ### C10: a zero multiplier is coerced to 1.0 -/

/-- C10: the falsy-or coercions `Number(multiplier) || 1.0` (modifier
lookup) and `params.modifierMultiplier || 1` (inside
`calculateTimeBasedLineTotal`) turn a stored or passed multiplier of 0 into
1.0, so a zero multiplier can never zero out a time-based line:
`calculateTimeBasedLineTotal` with multiplier 0 equals the call with
multiplier 1. -/
theorem C10_zero_multiplier_coerced_to_one :
    (∀ (rate hours : ℚ) (distance mileageRate : Option ℚ),
      calculateTimeBasedLineTotal rate hours 0 distance mileageRate
        = calculateTimeBasedLineTotal rate hours 1 distance mileageRate)
    ∧ (∀ mods i m, findModifier mods i = some m → m.multiplier = 0 →
        resolveModifierMultiplier mods (some i) = 1) := by
  constructor
  · intro rate hours distance mileageRate
    unfold calculateTimeBasedLineTotal jsOr
    norm_num
  · intro mods i m hfind hmul
    unfold findModifier at hfind
    simp [resolveModifierMultiplier, hfind, jsOr, hmul]

/-- Witness for C10: a stored modifier row with multiplier 0 resolves
to 1.0. -/
theorem C10_witness :
    resolveModifierMultiplier [⟨3, 0, true⟩] (some 3) = 1 :=
  C10_zero_multiplier_coerced_to_one.2 [⟨3, 0, true⟩] 3 ⟨3, 0, true⟩
    (by simp [findModifier]) rfl

/-! ### C4: discount resolution and clamp -/

/-- C4: the final discount is `min(max(d, 0), subtotal)` where `d` is the
percentage-derived amount when `discountPercentage > 0` and the flat
amount otherwise; hence it never exceeds the subtotal, and (for
non-negative line gross amounts) a negative discount input clamps to 0. -/
theorem C4_discount_resolution_and_clamp :
    ∀ (gs : List ℚ) (pct damt : ℚ),
      (finalDiscount (subtotalQ gs) pct damt
        = min (max (if 0 < pct then subtotalQ gs * (pct / 100) else damt) 0) (subtotalQ gs))
      ∧ finalDiscount (subtotalQ gs) pct damt ≤ subtotalQ gs
      ∧ ((∀ g ∈ gs, 0 ≤ g) →
          (if 0 < pct then subtotalQ gs * (pct / 100) else damt) < 0 →
          finalDiscount (subtotalQ gs) pct damt = 0) := by
  intro gs pct damt
  refine ⟨rfl, min_le_right _ _, ?_⟩
  intro hg hd
  have hst : 0 ≤ subtotalQ gs := subtotalQ_nonneg hg
  have hfd : finalDiscount (subtotalQ gs) pct damt
      = min (max (if 0 < pct then subtotalQ gs * (pct / 100) else damt) 0) (subtotalQ gs) := rfl
  rw [hfd, max_eq_right (le_of_lt hd), min_eq_left hst]

/-- Witness for C4 with gross amounts [100, 300] and a negative flat
discount input. -/
theorem C4_witness :
    finalDiscount (subtotalQ [100, 300]) 0 (-5) = 0 :=
  (C4_discount_resolution_and_clamp [100, 300] 0 (-5)).2.2
    (by intro g hg; fin_cases hg <;> norm_num)
    (by norm_num)

/-! ### C2: discount shares sum exactly -/

theorem lineDiscountsZAux_sum {fd S : ℚ} (hS : S ≠ 0) :
    ∀ (gs : List ℚ) (dist : ℚ), gs ≠ [] → Cent dist →
      (lineDiscountsZAux fd S dist gs).sum = r2 fd - dist := by
  intro gs
  induction gs with
  | nil => intro dist h _; exact absurd rfl h
  | cons g rest ih =>
    intro dist _ hc
    cases rest with
    | nil =>
      simp only [lineDiscountsZAux, if_neg hS, List.sum_cons, List.sum_nil]
      rw [r2_sub_cent hc]
      ring
    | cons h2 t =>
      have step := ih (dist + r2 (fd * (g / S))) (by simp) (cent_add hc (cent_r2 _))
      simp only [lineDiscountsZAux, if_neg hS, List.sum_cons]
      rw [step]
      ring

theorem lineDiscountsZAux_zero_of_subtotal_zero (fd : ℚ) :
    ∀ (gs : List ℚ) (dist : ℚ), ∀ d ∈ lineDiscountsZAux fd 0 dist gs, d = 0 := by
  intro gs
  induction gs with
  | nil => intro dist d hd; simp [lineDiscountsZAux] at hd
  | cons g rest ih =>
    intro dist d hd
    cases rest with
    | nil =>
      simp [lineDiscountsZAux] at hd
      exact hd
    | cons h2 t =>
      simp only [lineDiscountsZAux, if_pos rfl, if_true, List.mem_cons] at hd
      rcases hd with h1 | h1
      · exact h1
      · exact ih dist d h1

/-- C2: for a non-empty list of line gross amounts with positive subtotal
and a final discount in `[0, subtotal]`, the per-line discount shares of
the remainder-to-last-line distribution sum exactly to `r2` of the final
discount; and when the subtotal is 0 every share is 0. -/
theorem C2_discount_shares_sum :
    ∀ (gs : List ℚ) (fd : ℚ), gs ≠ [] →
      (0 < subtotalQ gs → 0 ≤ fd → fd ≤ subtotalQ gs →
        (lineDiscountsZ fd (subtotalQ gs) gs).foldl (· + ·) 0 = r2 fd)
      ∧ (subtotalQ gs = 0 →
        ∀ d ∈ lineDiscountsZ fd (subtotalQ gs) gs, d = 0) := by
  intro gs fd hne
  constructor
  · intro hpos _ _
    rw [foldl_add_eq_sum, zero_add]
    unfold lineDiscountsZ
    rw [lineDiscountsZAux_sum (ne_of_gt hpos) gs 0 hne cent_zero]
    ring
  · intro hzero d hd
    unfold lineDiscountsZ at hd
    rw [hzero] at hd
    exact lineDiscountsZAux_zero_of_subtotal_zero fd gs 0 d hd

/-- Witness for C2 at gross amounts [100, 300] with flat discount 40
(spec scenario 2: shares 10.00 and 30.00). -/
theorem C2_witness :
    (lineDiscountsZ 40 (subtotalQ [100, 300]) [100, 300]).foldl (· + ·) 0 = r2 40 :=
  (C2_discount_shares_sum [100, 300] 40 (by simp)).1
    (by norm_num [subtotalQ]) (by norm_num) (by norm_num [subtotalQ])

/-! ### C5: division-by-zero guards -/

theorem invoiceNetSafe_eq (rate after : ℚ) :
    invoiceNetSafe rate after = some (invoiceNet rate after) := by
  unfold invoiceNetSafe invoiceNet safeDiv
  split_ifs with h h2
  · linarith
  · rfl
  · rfl

theorem perLineNetSafe_eq (incl : Bool) (rs a : ℚ) :
    perLineNetSafe incl rs a = some (perLineNet incl rs a) := by
  unfold perLineNetSafe perLineNet safeDiv
  split_ifs with h h2
  · linarith [h.2]
  · rfl
  · rfl

theorem lineDiscountsSafeAux_eq {fd S : ℚ} (hS : 0 < S) :
    ∀ (gs : List ℚ) (dist : ℚ),
      lineDiscountsSafeAux fd S dist gs = some (lineDiscountsAux fd S dist gs) := by
  intro gs
  induction gs with
  | nil => intro dist; simp [lineDiscountsSafeAux, lineDiscountsAux]
  | cons g rest ih =>
    intro dist
    cases rest with
    | nil => simp [lineDiscountsSafeAux, lineDiscountsAux]
    | cons h2 t =>
      have hdiv : safeDiv g S = some (g / S) := by
        unfold safeDiv
        rw [if_neg (ne_of_gt hS)]
      simp only [lineDiscountsSafeAux, lineDiscountsAux, hdiv, ih]
      rfl

theorem lineDiscountsZSafeAux_eq (fd S : ℚ) :
    ∀ (gs : List ℚ) (dist : ℚ),
      lineDiscountsZSafeAux fd S dist gs = some (lineDiscountsZAux fd S dist gs) := by
  intro gs
  induction gs with
  | nil => intro dist; simp [lineDiscountsZSafeAux, lineDiscountsZAux]
  | cons g rest ih =>
    intro dist
    cases rest with
    | nil => simp [lineDiscountsZSafeAux, lineDiscountsZAux]
    | cons h2 t =>
      by_cases hS : S = 0
      · simp only [lineDiscountsZSafeAux, lineDiscountsZAux, if_pos hS, ih]
        rfl
      · have hdiv : safeDiv g S = some (g / S) := by
          unfold safeDiv
          rw [if_neg hS]
        simp only [lineDiscountsZSafeAux, lineDiscountsZAux, if_neg hS, hdiv, ih]
        rfl

/-- C5 counterexample: the re-derivation pass of `createInvoice` and
`updateInvoice` divides by `1 + taxRate/100` with no guard, so with
`taxRate = -100` and tax-inclusive pricing it divides by zero (producing
`NaN` in the source, `none` in the model), contradicting the claim that
every tax computation path checks its divisor. -/
theorem C5_counterexample :
    recalcTotalsFromLineTotals [10] 0 0 (-100) true = none := by
  unfold recalcTotalsFromLineTotals subtotalQ finalDiscount safeDiv
  norm_num

/-- C5 (amended): the divisions inside `calculateInvoiceTotals` and
`calculatePerLineTotals` are all guarded (`rate > 0` before dividing by
`1 + rate`, `rateSum > 0` before dividing by `1 + rateSum`, and the
per-line share division runs only under the `subtotal > 0` branch or the
`subtotal === 0` early return), so those computations never produce a
non-finite value; the re-derivation passes in `createInvoice` and
`updateInvoice` divide by `1 + taxRate/100` unguarded and are non-finite-free
only when that divisor is nonzero (that is, `taxRate ≠ -100`). -/
theorem C5_division_guards :
    (∀ rate after, invoiceNetSafe rate after = some (invoiceNet rate after))
    ∧ (∀ (incl : Bool) (rs a : ℚ), perLineNetSafe incl rs a = some (perLineNet incl rs a))
    ∧ (∀ fd S gs, 0 < S → lineDiscountsSafe fd S gs = some (lineDiscounts fd S gs))
    ∧ (∀ fd S gs, lineDiscountsZSafe fd S gs = some (lineDiscountsZ fd S gs))
    ∧ (∀ (lts : List ℚ) (pct damt taxRate : ℚ) (incl : Bool), 1 + taxRate / 100 ≠ 0 →
        ∃ t, recalcTotalsFromLineTotals lts pct damt taxRate incl = some t) := by
  refine ⟨invoiceNetSafe_eq, perLineNetSafe_eq, ?_, ?_, ?_⟩
  · intro fd S gs hS
    exact lineDiscountsSafeAux_eq hS gs 0
  · intro fd S gs
    exact lineDiscountsZSafeAux_eq fd S gs 0
  · intro lts pct damt taxRate incl hdiv
    unfold recalcTotalsFromLineTotals
    cases incl with
    | false => exact ⟨_, rfl⟩
    | true =>
      simp only [if_true]
      unfold safeDiv
      rw [if_neg hdiv]
      exact ⟨_, rfl⟩

/-- Witness for C5 at concrete guarded inputs. -/
theorem C5_witness :
    lineDiscountsSafe 5 (subtotalQ [2, 3]) [2, 3]
        = some (lineDiscounts 5 (subtotalQ [2, 3]) [2, 3])
    ∧ (∃ t, recalcTotalsFromLineTotals [10] 0 0 0 true = some t) :=
  ⟨C5_division_guards.2.2.1 5 (subtotalQ [2, 3]) [2, 3] (by norm_num [subtotalQ]),
   C5_division_guards.2.2.2.2 [10] 0 0 0 true (by norm_num)⟩

/-! ### C1: re-derivation of totals from persisted line totals -/

/-- C1 counterexample: with two quantity lines of 0.05 each and a 10% tax
under rounding mode "line", `calculateInvoiceTotals` rounds tax per line
(taxAmount 0.02, total 0.12) while the re-derivation pass of
`createInvoice`/`updateInvoice` never consults the rounding mode and
computes total-style (taxAmount 0.01, total 0.11), so re-derivation does
not reproduce the original totals for every rounding mode. -/
theorem C1_counterexample :
    recalcTotalsFromLineTotals (lineTotalsOf [⟨1, 1/20⟩, ⟨1, 1/20⟩]) 0 0 10 false
      ≠ some (calculateInvoiceTotals [⟨1, 1/20⟩, ⟨1, 1/20⟩] 0 0 10 false RoundingMode.line) := by
  have h1 : recalcTotalsFromLineTotals (lineTotalsOf [⟨1, 1/20⟩, ⟨1, 1/20⟩]) 0 0 10 false
      = some ⟨1/10, 0, 1/100, 11/100⟩ := by
    unfold recalcTotalsFromLineTotals lineTotalsOf subtotalQ finalDiscount
    norm_num [r2, jsRound]
  have h2 : calculateInvoiceTotals [⟨1, 1/20⟩, ⟨1, 1/20⟩] 0 0 10 false RoundingMode.line
      = ⟨1/10, 0, 1/50, 3/25⟩ := by
    norm_num [calculateInvoiceTotals, subtotalQ, finalDiscount, lineDiscounts,
      lineDiscountsAux, lineTaxContrib, lineTotalContrib, lineAfter, invoiceNet,
      List.zip, r2, jsRound]
  rw [h1, h2]
  intro hco
  have htax := congrArg CalculatedTotals.taxAmount (Option.some.inj hco)
  norm_num at htax

/-- C1 (amended): the re-derivation pass reproduces
`calculateInvoiceTotals` exactly when the invoice uses rounding mode
"total", the tax rate is non-negative, and the after-discount amount
`subtotal - finalDiscount` is a whole number of cents (for example when
every line total and the resolved discount are whole cents); under
rounding mode "line" the per-line rounding generally differs
(see the counterexample). -/
theorem C1_rederivation_amended :
    ∀ (items : List Item) (pct damt taxRate : ℚ) (incl : Bool),
      0 ≤ taxRate →
      Cent (subtotalQ (lineTotalsOf items)
            - finalDiscount (subtotalQ (lineTotalsOf items)) pct damt) →
      recalcTotalsFromLineTotals (lineTotalsOf items) pct damt taxRate incl
        = some (calculateInvoiceTotals items pct damt taxRate incl RoundingMode.total) := by
  intro items pct damt taxRate incl htr hcent
  have hrate : max 0 taxRate = taxRate := max_eq_right htr
  have hgr : items.map (fun it => it.quantity * it.unitPrice) = lineTotalsOf items := rfl
  unfold recalcTotalsFromLineTotals calculateInvoiceTotals
  rw [hgr, hrate]
  set S := subtotalQ (lineTotalsOf items) with hS
  set fd := finalDiscount S pct damt with hfd
  set a := S - fd with ha
  have hcond : ¬(RoundingMode.total = RoundingMode.line ∧ 0 < S) := by
    intro h
    exact absurd h.1 (by simp)
  rw [if_neg hcond]
  cases incl with
  | false =>
    simp only [Bool.false_eq_true, if_false, Option.some.injEq, CalculatedTotals.mk.injEq]
    refine ⟨by trivial, by trivial, by trivial, ?_⟩
    rw [r2_cent_add hcent (a * (taxRate / 100)),
        r2_cent_add hcent (r2 (a * (taxRate / 100))), r2_r2]
  | true =>
    have hdivpos : (0 : ℚ) < 1 + taxRate / 100 := by linarith
    have hsd : safeDiv a (1 + taxRate / 100) = some (a / (1 + taxRate / 100)) := by
      unfold safeDiv
      rw [if_neg (ne_of_gt hdivpos)]
    simp only [if_true, hsd, Option.some.injEq, CalculatedTotals.mk.injEq]
    refine ⟨by trivial, by trivial, ?_, by trivial⟩
    rcases lt_or_eq_of_le htr with h | h
    · have : invoiceNet (taxRate / 100) a = a / (1 + taxRate / 100) := by
        unfold invoiceNet
        rw [if_pos (by linarith)]
      rw [this]
    · have hz : taxRate = 0 := h.symm
      subst hz
      unfold invoiceNet
      norm_num

/-! ### C6 and C7: rate-modifier default invariant and deletion guards -/

theorem countP_congr_mem {α : Type} {p q : α → Bool} :
    ∀ {l : List α}, (∀ a ∈ l, p a = q a) → l.countP p = l.countP q := by
  intro l
  induction l with
  | nil => intro _; rfl
  | cons x xs ih =>
    intro h
    rw [List.countP_cons, List.countP_cons, h x (by simp),
      ih (fun a ha => h a (by simp [ha]))]

theorem id_unique {ms : List RateModifier} (hids : (ms.map RateModifier.id).Nodup)
    {m m2 : RateModifier} (hm : m ∈ ms) (hm2 : m2 ∈ ms) (h : m.id = m2.id) : m = m2 :=
  List.inj_on_of_nodup_map hids hm hm2 h

theorem countP_id_one :
    ∀ (ms : List RateModifier) (m : RateModifier),
      (ms.map RateModifier.id).Nodup → m ∈ ms →
      ms.countP (fun x => decide (x.id = m.id)) = 1 := by
  intro ms
  induction ms with
  | nil => intro m _ hm; simp at hm
  | cons x xs ih =>
    intro m hnd hm
    simp only [List.map_cons, List.nodup_cons] at hnd
    rcases List.mem_cons.1 hm with h | h
    · subst h
      have h0 : xs.countP (fun y => decide (y.id = m.id)) = 0 := by
        apply List.countP_eq_zero.2
        intro a ha hpa
        simp only [decide_eq_true_eq] at hpa
        exact hnd.1 (List.mem_map.2 ⟨a, ha, hpa⟩)
      rw [List.countP_cons, h0]
      simp
    · have hx : ¬x.id = m.id := by
        intro he
        exact hnd.1 (he ▸ List.mem_map.2 ⟨m, h, rfl⟩)
      rw [List.countP_cons, ih m hnd.2 h]
      simp [hx]

theorem unsetAllDefaults_count_zero (ms : List RateModifier) :
    (unsetAllDefaults ms).countP (fun m => m.isDefault) = 0 := by
  unfold unsetAllDefaults
  rw [List.countP_map]
  exact List.countP_eq_zero.2 (fun a _ h => by simp [Function.comp] at h)

theorem findModifier_some_id {ms : List RateModifier} {i : ℕ} {m : RateModifier}
    (h : findModifier ms i = some m) : m.id = i := by
  have := List.find?_some h
  simpa using this

theorem findModifier_some_mem {ms : List RateModifier} {i : ℕ} {m : RateModifier}
    (h : findModifier ms i = some m) : m ∈ ms :=
  List.mem_of_find?_eq_some h

theorem exactlyOneDefault_sole {ms : List RateModifier} (h1 : exactlyOneDefault ms)
    {m : RateModifier} (hm : m ∈ ms) (hd : m.isDefault = true) : isSoleDefault ms m := by
  refine ⟨hd, ?_⟩
  intro m2 hm2 hd2
  unfold exactlyOneDefault at h1
  rw [List.countP_eq_length_filter] at h1
  obtain ⟨a, ha⟩ := List.length_eq_one.1 h1
  have hma : m ∈ ms.filter (fun x => x.isDefault) := List.mem_filter.2 ⟨hm, hd⟩
  have hm2a : m2 ∈ ms.filter (fun x => x.isDefault) := List.mem_filter.2 ⟨hm2, hd2⟩
  rw [ha] at hma hm2a
  simp only [List.mem_singleton] at hma hm2a
  rw [hm2a, hma]

/-- C6 counterexample: from the valid one-default state
`[{id 0, multiplier 1, default}]`, calling `updateRateModifier` on the
default row with `isDefault = false` leaves zero defaults, so not every
mutation preserves the exactly-one-default invariant. -/
theorem C6_counterexample :
    exactlyOneDefault [⟨0, 1, true⟩]
    ∧ ¬ exactlyOneDefault (updateRateModifier [⟨0, 1, true⟩] 0 none (some false)) := by
  constructor
  · unfold exactlyOneDefault
    decide
  · intro h
    unfold updateRateModifier findModifier at h
    simp only [List.find?] at h
    norm_num [exactlyOneDefault, unsetAllDefaults, List.countP, List.countP.go] at h

/-- C6 (amended): from a state with exactly one default modifier,
`createRateModifier` and a successful `deleteRateModifier` preserve the
exactly-one-default invariant (setting a new default unsets all others,
and the default row cannot be deleted); `updateRateModifier` preserves it
except in the uncovered case in which the request sets `isDefault = false`
on the current default row, which leaves zero defaults (see the
counterexample). -/
theorem C6_exactly_one_default :
    ∀ ms : List RateModifier, exactlyOneDefault ms →
      (∀ (newId : ℕ) (mult : ℚ) (b : Bool),
        exactlyOneDefault (createRateModifier ms newId mult b))
      ∧ (∀ (usage : List ℕ) (i : ℕ) (ms2 : List RateModifier),
          (ms.map RateModifier.id).Nodup →
          deleteRateModifier ms usage i = Except.ok ms2 → exactlyOneDefault ms2)
      ∧ (∀ (i : ℕ) (nm : Option ℚ) (nd : Option Bool),
          (ms.map RateModifier.id).Nodup →
          (∀ m, findModifier ms i = some m → m.isDefault = true → nd ≠ some false) →
          exactlyOneDefault (updateRateModifier ms i nm nd)) := by
  intro ms h1
  refine ⟨?_, ?_, ?_⟩
  · -- createRateModifier
    intro newId mult b
    have h2 : ms.countP (fun m => m.isDefault) = 1 := h1
    unfold createRateModifier exactlyOneDefault
    cases b with
    | false =>
      rw [if_neg (by simp), List.countP_append, h2]
      simp [List.countP_cons]
    | true =>
      rw [if_pos rfl, List.countP_append, unsetAllDefaults_count_zero]
      simp [List.countP_cons]
  · -- deleteRateModifier, successful case
    intro usage i ms2 hids hok
    cases hfind : findModifier ms i with
    | none =>
      have : deleteRateModifier ms usage i = Except.error "Rate modifier not found" := by
        unfold deleteRateModifier
        rw [hfind]
      rw [this] at hok
      exact absurd hok (by simp)
    | some m =>
      have hdel : deleteRateModifier ms usage i =
          (if m.isDefault then
            Except.error "Cannot delete the default rate modifier. Set another modifier as default first."
          else if 0 < usage.countP (fun u => decide (u = i)) then
            Except.error "Cannot delete rate modifier: invoice item(s) are using it."
          else Except.ok (ms.filter (fun m2 => decide (m2.id ≠ i)))) := by
        unfold deleteRateModifier
        rw [hfind]
      rw [hdel] at hok
      by_cases hdef : m.isDefault
      · rw [hdef] at hok
        simp only [if_true] at hok
        exact absurd hok (by simp)
      · rw [if_neg hdef] at hok
        by_cases huse : 0 < usage.countP (fun u => decide (u = i))
        · rw [if_pos huse] at hok
          exact absurd hok (by simp)
        · rw [if_neg huse] at hok
          have hms2 : ms2 = ms.filter (fun m2 => decide (m2.id ≠ i)) := by
            have := Except.ok.inj hok
            exact this.symm
          subst hms2
          unfold exactlyOneDefault
          rw [List.countP_filter]
          have hcongr : ∀ a ∈ ms,
              (a.isDefault && decide (a.id ≠ i)) = a.isDefault := by
            intro a ha
            by_cases hai : a.id = i
            · have : a = m := id_unique hids ha (findModifier_some_mem hfind)
                (by rw [hai, findModifier_some_id hfind])
              subst this
              simp [hdef]
            · simp [hai]
          rw [countP_congr_mem hcongr]
          exact h1
  · -- updateRateModifier
    intro i nm nd hids hguard
    cases hfind : findModifier ms i with
    | none =>
      have : updateRateModifier ms i nm nd = ms := by
        unfold updateRateModifier
        rw [hfind]
      rw [this]
      exact h1
    | some ex =>
      have hexmem : ex ∈ ms := findModifier_some_mem hfind
      have hexid : ex.id = i := findModifier_some_id hfind
      have hupd : updateRateModifier ms i nm nd
          = (if (nd.getD ex.isDefault && !ex.isDefault) = true then unsetAllDefaults ms
             else ms).map
            (fun m => if m.id = i then
              { m with multiplier := nm.getD ex.multiplier,
                        isDefault := nd.getD ex.isDefault } else m) := by
        unfold updateRateModifier
        rw [hfind]
      rw [hupd]
      by_cases hb : (nd.getD ex.isDefault) && !ex.isDefault
      · -- newly becoming default: unset all, then set the target row
        rw [if_pos hb]
        have hbt : nd.getD ex.isDefault = true := by
          cases hnd : nd.getD ex.isDefault
          · rw [hnd] at hb; simp at hb
          · rfl
        unfold exactlyOneDefault
        rw [List.countP_map]
        have hpoint : ∀ a ∈ unsetAllDefaults ms,
            ((fun m => m.isDefault) ∘ (fun m =>
              if m.id = i then
                { m with multiplier := nm.getD ex.multiplier,
                          isDefault := nd.getD ex.isDefault } else m)) a
              = decide (a.id = ex.id) := by
          intro a ha
          obtain ⟨a0, _, ha0⟩ := List.mem_map.1 ha
          by_cases hai : a.id = i
          · simp [Function.comp, hai, hbt, hexid]
          · have : a.isDefault = false := by rw [← ha0]
            simp [Function.comp, hai, this, hexid]
        rw [countP_congr_mem hpoint]
        have hids2 : ((unsetAllDefaults ms).map RateModifier.id).Nodup := by
          unfold unsetAllDefaults
          rw [List.map_map]
          exact hids
        have hmem2 : ({ ex with isDefault := false } : RateModifier) ∈ unsetAllDefaults ms :=
          List.mem_map.2 ⟨ex, hexmem, rfl⟩
        have := countP_id_one (unsetAllDefaults ms) { ex with isDefault := false } hids2 hmem2
        simpa using this
      · -- not newly becoming default: the row keeps (or never had) the flag
        rw [if_neg hb]
        unfold exactlyOneDefault
        rw [List.countP_map]
        have hsame : nd.getD ex.isDefault = ex.isDefault := by
          cases hnd : nd with
          | none => rfl
          | some v =>
            cases v with
            | true =>
              cases hexd : ex.isDefault
              · rw [hnd, hexd] at hb; simp at hb
              · simp [hnd, hexd]
            | false =>
              cases hexd : ex.isDefault
              · simp [hnd, hexd]
              · exact absurd hnd (hguard ex hfind hexd)
        have hpoint : ∀ a ∈ ms,
            ((fun m => m.isDefault) ∘ (fun m =>
              if m.id = i then
                { m with multiplier := nm.getD ex.multiplier,
                          isDefault := nd.getD ex.isDefault } else m)) a
              = a.isDefault := by
          intro a ha
          by_cases hai : a.id = i
          · have : a = ex := id_unique hids ha hexmem (by rw [hai, hexid])
            subst this
            simp [Function.comp, hai, hsame]
          · simp [Function.comp, hai]
        rw [countP_congr_mem hpoint]
        exact h1

/-- Witness for C6: creating a new default modifier from a one-default
state preserves the invariant. -/
theorem C6_witness :
    exactlyOneDefault (createRateModifier [⟨0, 1, true⟩] 1 2 true) :=
  (C6_exactly_one_default [⟨0, 1, true⟩] (by unfold exactlyOneDefault; decide)).1 1 2 true

/-- C7: for an existing rate modifier in a well-formed state (distinct ids,
exactly one default), `deleteRateModifier` raises a domain error if and
only if the modifier is referenced by an invoice item or is the sole
default; all checks precede the DELETE so an error leaves the stored rows
unchanged, and on success exactly the rows with the requested id are
removed. -/
theorem C7_delete_raises_iff_protected :
    ∀ (ms : List RateModifier) (usage : List ℕ) (i : ℕ) (m : RateModifier),
      (ms.map RateModifier.id).Nodup → exactlyOneDefault ms →
      findModifier ms i = some m →
      ((∃ e, deleteRateModifier ms usage i = Except.error e) ↔
        (0 < usage.countP (fun u => decide (u = i)) ∨ isSoleDefault ms m))
      ∧ (∀ ms2, deleteRateModifier ms usage i = Except.ok ms2 →
          ms2 = ms.filter (fun m2 => decide (m2.id ≠ i))) := by
  intro ms usage i m hids h1 hfind
  have hdel : deleteRateModifier ms usage i =
      (if m.isDefault then
        Except.error "Cannot delete the default rate modifier. Set another modifier as default first."
      else if 0 < usage.countP (fun u => decide (u = i)) then
        Except.error "Cannot delete rate modifier: invoice item(s) are using it."
      else Except.ok (ms.filter (fun m2 => decide (m2.id ≠ i)))) := by
    unfold deleteRateModifier
    rw [hfind]
  by_cases hdef : m.isDefault
  · rw [hdef] at hdel
    simp only [if_true] at hdel
    constructor
    · rw [hdel]
      constructor
      · intro _
        exact Or.inr (exactlyOneDefault_sole h1 (findModifier_some_mem hfind) hdef)
      · intro _
        exact ⟨_, rfl⟩
    · intro ms2 hok
      rw [hdel] at hok
      exact absurd hok (by simp)
  · rw [if_neg hdef] at hdel
    by_cases huse : 0 < usage.countP (fun u => decide (u = i))
    · rw [if_pos huse] at hdel
      constructor
      · rw [hdel]
        exact ⟨fun _ => Or.inl huse, fun _ => ⟨_, rfl⟩⟩
      · intro ms2 hok
        rw [hdel] at hok
        exact absurd hok (by simp)
    · rw [if_neg huse] at hdel
      constructor
      · rw [hdel]
        constructor
        · intro ⟨e, he⟩
          exact absurd he (by simp)
        · intro h
          rcases h with h | h
          · exact absurd h huse
          · rw [h.1] at hdef
            exact absurd rfl hdef
      · intro ms2 hok
        rw [hdel] at hok
        exact (Except.ok.inj hok).symm

/-- Witness for C7: deleting a non-default, in-use modifier raises exactly
because it is in use. -/
theorem C7_witness :
    (∃ e, deleteRateModifier [⟨0, 1, true⟩, ⟨1, 2, false⟩] [1] 1 = Except.error e)
      ↔ (0 < List.countP (fun u => decide (u = 1)) [1]
          ∨ isSoleDefault [⟨0, 1, true⟩, ⟨1, 2, false⟩] ⟨1, 2, false⟩) :=
  (C7_delete_raises_iff_protected [⟨0, 1, true⟩, ⟨1, 2, false⟩] [1] 1 ⟨1, 2, false⟩
    (by decide) (by unfold exactlyOneDefault; decide) rfl).1

/-- Witness for the amended C1: a single quantity line 2 x 5 with flat
discount 3 and 10% exclusive tax re-derives to the same totals. -/
theorem C1_witness :
    recalcTotalsFromLineTotals (lineTotalsOf [⟨2, 5⟩]) 0 3 10 false
      = some (calculateInvoiceTotals [⟨2, 5⟩] 0 3 10 false RoundingMode.total) :=
  C1_rederivation_amended [⟨2, 5⟩] 0 3 10 false (by norm_num)
    ⟨700, by norm_num [subtotalQ, lineTotalsOf, finalDiscount]⟩

/-! ### C8: tax non-negativity -/

theorem sum_map_nonneg {α : Type} (l : List α) (f : α → ℚ)
    (h : ∀ x ∈ l, 0 ≤ f x) : 0 ≤ (l.map f).sum := by
  apply List.sum_nonneg
  intro x hx
  obtain ⟨a, ha, rfl⟩ := List.mem_map.1 hx
  exact h a ha

theorem foldl_addf_nonneg {α : Type} (f : α → ℚ) (l : List α) {a : ℚ}
    (ha : 0 ≤ a) (h : ∀ x ∈ l, 0 ≤ f x) :
    0 ≤ l.foldl (fun acc x => acc + f x) a := by
  rw [foldl_addf_eq_sum]
  have := sum_map_nonneg l f h
  linarith

theorem lineAfter_nonneg (g ld : ℚ) : 0 ≤ lineAfter g ld := le_max_left 0 _

theorem invoiceNet_le {a : ℚ} (ha : 0 ≤ a) (rate : ℚ) : invoiceNet rate a ≤ a := by
  unfold invoiceNet
  split_ifs with h
  · exact div_le_self ha (by linarith)
  · exact le_refl a

theorem lineTaxContrib_nonneg {rate : ℚ} (hr : 0 ≤ rate) (incl : Bool) (g ld : ℚ) :
    0 ≤ lineTaxContrib rate incl g ld := by
  unfold lineTaxContrib
  cases incl with
  | true =>
    simp only [if_true]
    exact r2_nonneg (sub_nonneg.2 (invoiceNet_le (lineAfter_nonneg g ld) rate))
  | false =>
    simp only [Bool.false_eq_true, if_false]
    exact r2_nonneg (mul_nonneg (lineAfter_nonneg g ld) hr)

theorem finalDiscount_le (st pct damt : ℚ) : finalDiscount st pct damt ≤ st := by
  unfold finalDiscount
  exact min_le_right _ _

theorem perLineNet_nonneg (incl : Bool) (rs : ℚ) {a : ℚ} (ha : 0 ≤ a) :
    0 ≤ perLineNet incl rs a := by
  unfold perLineNet
  split_ifs with h
  · exact div_nonneg ha (by linarith [h.2])
  · exact ha

theorem summaryGet_nonneg :
    ∀ (m : List (ℚ × ℚ × ℚ)) (key : ℚ),
      (∀ e ∈ m, 0 ≤ e.2.1 ∧ 0 ≤ e.2.2) →
      0 ≤ (summaryGet m key).1 ∧ 0 ≤ (summaryGet m key).2 := by
  intro m
  induction m with
  | nil => intro key _; simp [summaryGet]
  | cons e rest ih =>
    intro key h
    unfold summaryGet
    split_ifs with he
    · exact (h e (by simp))
    · exact ih key (fun x hx => h x (by simp [hx]))

theorem summarySet_mem :
    ∀ (m : List (ℚ × ℚ × ℚ)) (key : ℚ) (v : ℚ × ℚ) (a : ℚ × ℚ × ℚ),
      a ∈ summarySet m key v → a = (key, v) ∨ a ∈ m := by
  intro m
  induction m with
  | nil =>
    intro key v a ha
    simp [summarySet] at ha
    exact Or.inl ha
  | cons e rest ih =>
    intro key v a ha
    unfold summarySet at ha
    split_ifs at ha with he
    · rcases List.mem_cons.1 ha with h | h
      · exact Or.inl h
      · exact Or.inr (by simp [h])
    · rcases List.mem_cons.1 ha with h | h
      · exact Or.inr (by simp [h])
      · rcases ih key v a h with h2 | h2
        · exact Or.inl h2
        · exact Or.inr (by simp [h2])

theorem taxFold_inv {net : ℚ} (hnet : 0 ≤ net) :
    ∀ (ps : List ℚ) (init : List (ℚ × ℚ) × List (ℚ × ℚ × ℚ)),
      (∀ p ∈ ps, 0 ≤ p) →
      (∀ t ∈ init.1, 0 ≤ t.2) →
      (∀ e ∈ init.2, 0 ≤ e.2.1 ∧ 0 ≤ e.2.2) →
      (∀ t ∈ (taxFold net init ps).1, 0 ≤ t.2)
      ∧ (∀ e ∈ (taxFold net init ps).2, 0 ≤ e.2.1 ∧ 0 ≤ e.2.2) := by
  intro ps
  induction ps with
  | nil => intro init _ h1 h2; exact ⟨h1, h2⟩
  | cons p ps ih =>
    intro init hp h1 h2
    have hp0 : 0 ≤ p := hp p (by simp)
    have hamt : 0 ≤ r2 (net * (p / 100)) :=
      r2_nonneg (mul_nonneg hnet (by linarith))
    have hget := summaryGet_nonneg init.2 (r2 (p / 100 * 100)) h2
    have hstep : taxFold net init (p :: ps) = taxFold net
        (init.1 ++ [(r2 (p / 100 * 100), r2 (net * (p / 100)))],
         summarySet init.2 (r2 (p / 100 * 100))
           (r2 ((summaryGet init.2 (r2 (p / 100 * 100))).1 + net),
            r2 ((summaryGet init.2 (r2 (p / 100 * 100))).2 + r2 (net * (p / 100))))) ps := rfl
    rw [hstep]
    apply ih
    · intro q hq
      exact hp q (by simp [hq])
    · intro t ht
      rcases List.mem_append.1 ht with h | h
      · exact h1 t h
      · simp only [List.mem_singleton] at h
        rw [h]
        exact hamt
    · intro e he
      rcases summarySet_mem _ _ _ e he with h | h
      · rw [h]
        exact ⟨r2_nonneg (by linarith [hget.1]), r2_nonneg (by linarith [hget.2])⟩
      · exact h2 e h

set_option maxHeartbeats 1000000 in
theorem perLineStep_inv (incl : Bool) (st : PLState) (pr : ItemInput × ℚ)
    (hp : ∀ p ∈ pr.1.taxes, 0 ≤ p) (hinv : PLInv st) :
    PLInv (perLineStep incl st pr) := by
  obtain ⟨h1, h2, h3⟩ := hinv
  have hres : perLineStep incl st pr =
      { perItem := st.perItem ++
          [⟨r2 (perLineNet incl (subtotalQ pr.1.taxes / 100)
                (lineAfter (pr.1.quantity * pr.1.unitPrice) pr.2)),
            (taxFold (perLineNet incl (subtotalQ pr.1.taxes / 100)
                (lineAfter (pr.1.quantity * pr.1.unitPrice) pr.2))
              ([], st.summaryMap) pr.1.taxes).1⟩]
        taxAmount := r2 (st.taxAmount +
          r2 ((taxFold (perLineNet incl (subtotalQ pr.1.taxes / 100)
                (lineAfter (pr.1.quantity * pr.1.unitPrice) pr.2))
              ([], st.summaryMap) pr.1.taxes).1.foldl (fun a b => a + b.2) 0))
        total := if incl then
            r2 (st.total + lineAfter (pr.1.quantity * pr.1.unitPrice) pr.2)
          else
            r2 (st.total + perLineNet incl (subtotalQ pr.1.taxes / 100)
                  (lineAfter (pr.1.quantity * pr.1.unitPrice) pr.2) +
              r2 ((taxFold (perLineNet incl (subtotalQ pr.1.taxes / 100)
                    (lineAfter (pr.1.quantity * pr.1.unitPrice) pr.2))
                  ([], st.summaryMap) pr.1.taxes).1.foldl (fun a b => a + b.2) 0))
        summaryMap := (taxFold (perLineNet incl (subtotalQ pr.1.taxes / 100)
              (lineAfter (pr.1.quantity * pr.1.unitPrice) pr.2))
            ([], st.summaryMap) pr.1.taxes).2 } := rfl
  rw [hres]
  set net := perLineNet incl (subtotalQ pr.1.taxes / 100)
      (lineAfter (pr.1.quantity * pr.1.unitPrice) pr.2) with hnetdef
  set tf := taxFold net ([], st.summaryMap) pr.1.taxes with htfdef
  have hnet : 0 ≤ net := perLineNet_nonneg incl _ (lineAfter_nonneg _ _)
  have htf := taxFold_inv hnet pr.1.taxes ([], st.summaryMap) hp (by simp) h3
  rw [← htfdef] at htf
  have hsum : 0 ≤ r2 (tf.1.foldl (fun a b => a + b.2) 0) :=
    r2_nonneg (foldl_addf_nonneg (fun b : ℚ × ℚ => b.2) _ (le_refl 0) htf.1)
  refine ⟨?_, ?_, ?_⟩
  · exact r2_nonneg (by linarith)
  · intro pi hpi
    rcases List.mem_append.1 hpi with h | h
    · exact h2 pi h
    · simp only [List.mem_singleton] at h
      rw [h]
      exact htf.1
  · intro e he
    exact htf.2 e he

theorem perLineLoop_inv (incl : Bool) :
    ∀ (l : List (ItemInput × ℚ)) (st : PLState),
      (∀ pr ∈ l, ∀ p ∈ pr.1.taxes, 0 ≤ p) → PLInv st →
      PLInv (l.foldl (perLineStep incl) st) := by
  intro l
  induction l with
  | nil => intro st _ h; exact h
  | cons pr rest ih =>
    intro st hp h
    rw [List.foldl_cons]
    exact ih (perLineStep incl st pr)
      (fun q hq => hp q (by simp [hq]))
      (perLineStep_inv incl st pr (hp pr (by simp)) h)

theorem mem_insertByPercent (e : ℚ × ℚ × ℚ) :
    ∀ (l : List (ℚ × ℚ × ℚ)) (a : ℚ × ℚ × ℚ),
      a ∈ insertByPercent e l → a = e ∨ a ∈ l := by
  intro l
  induction l with
  | nil => intro a ha; simp [insertByPercent] at ha; exact Or.inl ha
  | cons f rest ih =>
    intro a ha
    unfold insertByPercent at ha
    split_ifs at ha with he
    · rcases List.mem_cons.1 ha with h | h
      · exact Or.inl h
      · exact Or.inr h
    · rcases List.mem_cons.1 ha with h | h
      · exact Or.inr (by simp [h])
      · rcases ih a h with h2 | h2
        · exact Or.inl h2
        · exact Or.inr (by simp [h2])

theorem mem_sortByPercent :
    ∀ (l : List (ℚ × ℚ × ℚ)) (a : ℚ × ℚ × ℚ), a ∈ sortByPercent l → a ∈ l := by
  intro l
  induction l with
  | nil => intro a ha; simp [sortByPercent] at ha
  | cons e rest ih =>
    intro a ha
    unfold sortByPercent at ha
    rcases mem_insertByPercent e _ a ha with h | h
    · simp [h]
    · exact List.mem_cons.2 (Or.inr (ih a h))

/-- C8: for valid inputs (non-negative line gross amounts, non-negative tax
rate and per-line tax percents; the discount is clamped to `[0, subtotal]`
internally), the `taxAmount` of `calculateInvoiceTotals` is non-negative,
and so are the invoice-level `taxAmount`, every per-item tax amount and
every per-rate summary amount of `calculatePerLineTotals`. -/
theorem C8_tax_nonnegative :
    (∀ (items : List Item) (pct damt taxRate : ℚ) (incl : Bool) (mode : RoundingMode),
      (∀ it ∈ items, 0 ≤ it.quantity * it.unitPrice) → 0 ≤ taxRate →
      0 ≤ (calculateInvoiceTotals items pct damt taxRate incl mode).taxAmount)
    ∧ (∀ (items : List ItemInput) (pct damt : ℚ) (incl : Bool),
      (∀ it ∈ items, 0 ≤ it.quantity * it.unitPrice ∧ ∀ p ∈ it.taxes, 0 ≤ p) →
      0 ≤ (calculatePerLineTotals items pct damt incl).taxAmount
      ∧ (∀ pi ∈ (calculatePerLineTotals items pct damt incl).perItem,
          ∀ t ∈ pi.taxes, 0 ≤ t.2)
      ∧ (∀ s ∈ (calculatePerLineTotals items pct damt incl).summary, 0 ≤ s.2.2)) := by
  constructor
  · intro items pct damt taxRate incl mode _ _
    have hr : 0 ≤ max 0 taxRate / 100 := div_nonneg (le_max_left 0 taxRate) (by norm_num)
    unfold calculateInvoiceTotals
    dsimp only
    split_ifs with hcond hincl
    · exact r2_nonneg (foldl_addf_nonneg _ _ (le_refl 0)
        (fun p _ => lineTaxContrib_nonneg hr incl p.1 p.2))
    · have ha : 0 ≤ subtotalQ (items.map fun it => it.quantity * it.unitPrice)
          - finalDiscount (subtotalQ (items.map fun it => it.quantity * it.unitPrice)) pct damt :=
        sub_nonneg.2 (finalDiscount_le _ pct damt)
      exact r2_nonneg (sub_nonneg.2 (invoiceNet_le ha _))
    · have ha : 0 ≤ subtotalQ (items.map fun it => it.quantity * it.unitPrice)
          - finalDiscount (subtotalQ (items.map fun it => it.quantity * it.unitPrice)) pct damt :=
        sub_nonneg.2 (finalDiscount_le _ pct damt)
      exact r2_nonneg (mul_nonneg ha hr)
  · intro items pct damt incl hvalid
    have hzip : ∀ pr ∈ items.zip (lineDiscountsZ
        (finalDiscount (subtotalQ (items.map fun it => it.quantity * it.unitPrice)) pct damt)
        (subtotalQ (items.map fun it => it.quantity * it.unitPrice))
        (items.map fun it => it.quantity * it.unitPrice)),
        ∀ p ∈ pr.1.taxes, 0 ≤ p := by
      intro pr hpr
      obtain ⟨a, b⟩ := pr
      exact (hvalid a (List.of_mem_zip hpr).1).2
    have hinit : PLInv ⟨[], 0, 0, []⟩ := ⟨le_refl 0, by simp, by simp⟩
    have hinv := perLineLoop_inv incl _ _ hzip hinit
    unfold calculatePerLineTotals
    dsimp only
    refine ⟨r2_nonneg hinv.1, hinv.2.1, ?_⟩
    intro s hs
    have hmem := mem_sortByPercent _ s hs
    obtain ⟨e, he, rfl⟩ := List.mem_map.1 hmem
    exact r2_nonneg (hinv.2.2 e he).2

/-- Witness for C8 at one quantity line with invoice-level 8.5% tax and at
one per-line-taxed line with percents 20 and 5. -/
theorem C8_witness :
    0 ≤ (calculateInvoiceTotals [⟨1, 200⟩] 0 10 (17/2) false RoundingMode.line).taxAmount
    ∧ 0 ≤ (calculatePerLineTotals [⟨1, 100, [20, 5]⟩] 0 0 false).taxAmount :=
  ⟨C8_tax_nonnegative.1 [⟨1, 200⟩] 0 10 (17/2) false RoundingMode.line
    (by intro it hit; fin_cases hit; norm_num) (by norm_num),
   (C8_tax_nonnegative.2 [⟨1, 100, [20, 5]⟩] 0 0 false
    (by intro it hit; fin_cases hit; exact ⟨by norm_num, by intro p hp; fin_cases hp <;> norm_num⟩)).1⟩

/-! ### C9: rounding-mode divergence -/

theorem lineDiscountsAux_length (fd S : ℚ) :
    ∀ (gs : List ℚ) (dist : ℚ), (lineDiscountsAux fd S dist gs).length = gs.length := by
  intro gs
  induction gs with
  | nil => intro dist; simp [lineDiscountsAux]
  | cons g rest ih =>
    intro dist
    cases rest with
    | nil => simp [lineDiscountsAux]
    | cons h2 t => simp only [lineDiscountsAux, List.length_cons, ih]

theorem lineDiscountsAux_sum (fd S : ℚ) :
    ∀ (gs : List ℚ) (dist : ℚ), gs ≠ [] → Cent dist →
      (lineDiscountsAux fd S dist gs).sum = r2 fd - dist := by
  intro gs
  induction gs with
  | nil => intro dist h _; exact absurd rfl h
  | cons g rest ih =>
    intro dist _ hc
    cases rest with
    | nil =>
      simp only [lineDiscountsAux, List.sum_cons, List.sum_nil]
      rw [r2_sub_cent hc]
      ring
    | cons h2 t =>
      have step := ih (dist + r2 (fd * (g / S))) (by simp) (cent_add hc (cent_r2 _))
      simp only [lineDiscountsAux, List.sum_cons]
      rw [step]
      ring

theorem sum_map_add2 {α : Type} (l : List α) (f g : α → ℚ) :
    (l.map (fun x => f x + g x)).sum = (l.map f).sum + (l.map g).sum := by
  induction l with
  | nil => simp
  | cons x xs ih => simp [ih]; ring

theorem sum_map_mul_const {α : Type} (l : List α) (f : α → ℚ) (c : ℚ) :
    (l.map (fun x => f x * c)).sum = (l.map f).sum * c := by
  induction l with
  | nil => simp
  | cons x xs ih => simp [ih]; ring

theorem map_congr_mem {α β : Type} :
    ∀ (l : List α) (f g : α → β), (∀ a ∈ l, f a = g a) → l.map f = l.map g := by
  intro l
  induction l with
  | nil => intro f g _; rfl
  | cons x xs ih =>
    intro f g h
    simp only [List.map_cons]
    rw [h x (by simp), ih f g (fun a ha => h a (by simp [ha]))]

theorem sum_zip_sub :
    ∀ (gs lds : List ℚ), gs.length = lds.length →
      ((gs.zip lds).map (fun p => p.1 - p.2)).sum = gs.sum - lds.sum := by
  intro gs
  induction gs with
  | nil =>
    intro lds h
    cases lds with
    | nil => simp
    | cons l ls => simp at h
  | cons g rest ih =>
    intro lds h
    cases lds with
    | nil => simp at h
    | cons l ls =>
      simp only [List.length_cons, Nat.succ.injEq] at h
      simp only [List.zip_cons_cons, List.map_cons, List.sum_cons, ih ls h]
      ring

theorem abs_sum_sub_le {α : Type} :
    ∀ (l : List α) (f g : α → ℚ) (c : ℚ),
      (∀ x ∈ l, |f x - g x| ≤ c) →
      |(l.map f).sum - (l.map g).sum| ≤ l.length * c := by
  intro l
  induction l with
  | nil => intro f g c _; simp
  | cons x xs ih =>
    intro f g c h
    have hx := h x (by simp)
    have hxs := ih f g c (fun a ha => h a (by simp [ha]))
    simp only [List.map_cons, List.sum_cons, List.length_cons]
    have hdec : f x + (xs.map f).sum - (g x + (xs.map g).sum)
        = (f x - g x) + ((xs.map f).sum - (xs.map g).sum) := by ring
    rw [hdec]
    refine le_trans (abs_add _ _) ?_
    push_cast
    linarith

theorem max0_decomp (x y : ℚ) : max 0 (x - y) = (x - y) + max 0 (y - x) := by
  rcases le_total x y with h | h
  · have h1 : x - y ≤ 0 := by linarith
    have h2 : 0 ≤ y - x := by linarith
    rw [max_eq_left h1, max_eq_right h2]
    ring
  · have h1 : 0 ≤ x - y := by linarith
    have h2 : y - x ≤ 0 := by linarith
    rw [max_eq_right h1, max_eq_left h2]
    ring

theorem lineDiscountsAux_excess {fd S : ℚ} (hS : 0 < S) (hfd0 : 0 ≤ fd) (hfdS : fd ≤ S) :
    ∀ (gs : List ℚ) (dist : ℚ) (m : ℕ),
      (∀ g ∈ gs, 0 ≤ g) →
      fd * ((S - gs.sum) / S) - m / 200 ≤ dist →
      ((gs.zip (lineDiscountsAux fd S dist gs)).map
        (fun p => max 0 (p.2 - p.1))).sum ≤ (m + 2 * gs.length) / 200 := by
  intro gs
  induction gs with
  | nil =>
    intro dist m _ _
    simp only [lineDiscountsAux, List.zip_nil_left, List.map_nil, List.sum_nil]
    positivity
  | cons g rest ih =>
    intro dist m hg hdist
    have hg0 : 0 ≤ g := hg g (by simp)
    have hfrac : fd * (g / S) ≤ g := by
      rw [← mul_div_assoc, div_le_iff hS]
      nlinarith
    cases rest with
    | nil =>
      have hld : r2 (fd - dist) ≤ fd - dist + 1/200 := r2_le_add _
      have hdist2 : fd - fd * (g / S) - (m : ℚ) / 200 ≤ dist := by
        have halg : fd * ((S - (g :: (List.nil : List ℚ)).sum) / S)
            = fd - fd * (g / S) := by
          simp only [List.sum_cons, List.sum_nil, add_zero]
          field_simp
          ring
        rw [halg] at hdist
        exact hdist
      simp only [lineDiscountsAux, List.zip_cons_cons, List.zip_nil_left,
        List.map_cons, List.map_nil, List.sum_cons, List.sum_nil, add_zero,
        List.length_cons, List.length_nil]
      apply max_le
      · positivity
      · push_cast
        linarith
    | cons h2 t =>
      have hdlow : fd * (g / S) - 1/200 ≤ r2 (fd * (g / S)) := r2_ge_sub _
      have hdup : r2 (fd * (g / S)) ≤ fd * (g / S) + 1/200 := r2_le_add _
      have hhead : max 0 (r2 (fd * (g / S)) - g) ≤ 1/200 := by
        apply max_le
        · norm_num
        · linarith
      have hrest : fd * ((S - (h2 :: t).sum) / S) - ((m + 1 : ℕ) : ℚ) / 200
          ≤ dist + r2 (fd * (g / S)) := by
        have halg : fd * ((S - (g :: h2 :: t).sum) / S) + fd * (g / S)
            = fd * ((S - (h2 :: t).sum) / S) := by
          rw [List.sum_cons]
          field_simp
          ring
        push_cast
        nlinarith [hdist, hdlow]
      have htail := ih (dist + r2 (fd * (g / S))) (m + 1)
        (fun x hx => hg x (by simp [hx])) hrest
      simp only [lineDiscountsAux, List.zip_cons_cons, List.map_cons, List.sum_cons,
        List.length_cons] at htail ⊢
      push_cast at htail ⊢
      linarith

theorem lineTotalContrib_incl (rate g ld : ℚ) :
    lineTotalContrib rate true g ld = r2 (lineAfter g ld) := by
  simp [lineTotalContrib]

theorem lineTotalContrib_excl (rate g ld : ℚ) :
    lineTotalContrib rate false g ld
      = r2 (lineAfter g ld + r2 (lineAfter g ld * rate)) := by
  simp [lineTotalContrib]

theorem contrib_err_excl (rate g ld : ℚ) :
    |lineTotalContrib rate false g ld - lineAfter g ld * (1 + rate)| ≤ 1/100 := by
  rw [lineTotalContrib_excl]
  have e1 := abs_r2_sub_le (lineAfter g ld + r2 (lineAfter g ld * rate))
  have e2 := abs_r2_sub_le (lineAfter g ld * rate)
  have hdec : r2 (lineAfter g ld + r2 (lineAfter g ld * rate))
        - lineAfter g ld * (1 + rate)
      = (r2 (lineAfter g ld + r2 (lineAfter g ld * rate))
          - (lineAfter g ld + r2 (lineAfter g ld * rate)))
        + (r2 (lineAfter g ld * rate) - lineAfter g ld * rate) := by ring
  rw [hdec]
  refine le_trans (abs_add _ _) ?_
  rw [abs_le] at e1 e2
  have := abs_le.1 (le_refl |r2 (lineAfter g ld * rate) - lineAfter g ld * rate|)
  calc |r2 (lineAfter g ld + r2 (lineAfter g ld * rate))
          - (lineAfter g ld + r2 (lineAfter g ld * rate))|
        + |r2 (lineAfter g ld * rate) - lineAfter g ld * rate|
      ≤ 1/200 + 1/200 := by
        have a1 := abs_r2_sub_le (lineAfter g ld + r2 (lineAfter g ld * rate))
        have a2 := abs_r2_sub_le (lineAfter g ld * rate)
        linarith
    _ = 1/100 := by norm_num

theorem contrib_err_incl (rate g ld : ℚ) :
    |lineTotalContrib rate true g ld - lineAfter g ld| ≤ 1/200 := by
  rw [lineTotalContrib_incl]
  exact abs_r2_sub_le _

theorem two_round_err (a rate : ℚ) :
    |r2 (a + r2 (a * rate)) - a * (1 + rate)| ≤ 1/100 := by
  have e1 := abs_r2_sub_le (a + r2 (a * rate))
  have e2 := abs_r2_sub_le (a * rate)
  have hdec : r2 (a + r2 (a * rate)) - a * (1 + rate)
      = (r2 (a + r2 (a * rate)) - (a + r2 (a * rate)))
        + (r2 (a * rate) - a * rate) := by ring
  rw [hdec]
  refine le_trans (abs_add _ _) ?_
  linarith

set_option maxHeartbeats 1000000 in
/-- C9 (amended): the divergence between the totals of rounding mode "line"
and rounding mode "total" is bounded, but the bound scales with the tax
rate rather than being a flat cent per line:
`|total_line - total_total| ≤ (1 + rate) * (2*n + 2)/100` with
`rate = max(0, taxRate)/100` and `n` the number of lines; the claimed
`0.01 × n` bound fails for sub-cent amounts at high tax rates
(see the counterexample). -/
theorem C9_rounding_divergence :
    ∀ (items : List Item) (pct damt taxRate : ℚ) (incl : Bool),
      (∀ it ∈ items, 0 ≤ it.quantity * it.unitPrice) →
      |(calculateInvoiceTotals items pct damt taxRate incl RoundingMode.line).total
        - (calculateInvoiceTotals items pct damt taxRate incl RoundingMode.total).total|
        ≤ (1 + max 0 taxRate / 100) * (2 * items.length + 2) / 100 := by
  intro items pct damt taxRate incl hitems
  have hr0 : 0 ≤ max 0 taxRate / 100 := div_nonneg (le_max_left 0 taxRate) (by norm_num)
  unfold calculateInvoiceTotals
  dsimp only
  set rate := max 0 taxRate / 100 with hrate
  set gs := items.map (fun it => it.quantity * it.unitPrice) with hgs
  set S := subtotalQ gs with hSdef
  set fd := finalDiscount S pct damt with hfddef
  have hcond2 : ¬(RoundingMode.total = RoundingMode.line ∧ 0 < S) :=
    fun h => absurd h.1 (by simp)
  rw [if_neg hcond2]
  have hlen2 : ((items.length : ℚ)) = (gs.length : ℚ) := by
    rw [hgs, List.length_map]
  by_cases hpos : 0 < S
  case neg =>
    have hcond1 : ¬(RoundingMode.line = RoundingMode.line ∧ 0 < S) := fun h => hpos h.2
    rw [if_neg hcond1, sub_self, abs_zero]
    have hn : (0:ℚ) ≤ 2 * items.length + 2 := by positivity
    exact div_nonneg (mul_nonneg (by linarith) hn) (by norm_num)
  case pos =>
    have hgs0 : ∀ g ∈ gs, 0 ≤ g := by
      rw [hgs]
      intro g hgmem
      obtain ⟨it, hit, rfl⟩ := List.mem_map.1 hgmem
      exact hitems it hit
    have hfd0 : 0 ≤ fd := by
      rw [hfddef]
      unfold finalDiscount
      exact le_min (le_max_right _ 0) hpos.le
    have hfdS : fd ≤ S := by
      rw [hfddef]
      exact finalDiscount_le S pct damt
    have hgs_ne : gs ≠ [] := by
      intro h
      have hz : S = 0 := by rw [hSdef, h]; rfl
      rw [hz] at hpos
      exact absurd hpos (lt_irrefl 0)
    have hgssum : gs.sum = S := by rw [hSdef, subtotalQ_eq_sum]
    rw [if_pos ⟨rfl, hpos⟩]
    set lds := lineDiscounts fd S gs with hldsdef
    have hldsaux : lds = lineDiscountsAux fd S 0 gs := hldsdef
    have hlen : lds.length = gs.length := by
      rw [hldsaux]
      exact lineDiscountsAux_length fd S gs 0
    have hziplen : (gs.zip lds).length = gs.length := by
      rw [List.length_zip, hlen, min_self]
    have hsumlds : lds.sum = r2 fd := by
      rw [hldsaux]
      have h := lineDiscountsAux_sum fd S gs 0 hgs_ne cent_zero
      rw [sub_zero] at h
      exact h
    set E := ((gs.zip lds).map (fun p => max 0 (p.2 - p.1))).sum with hEdef
    have hE0 : 0 ≤ E := by
      rw [hEdef]
      exact sum_map_nonneg _ _ (fun p _ => le_max_left 0 _)
    have hE_ub : E ≤ (2 * (gs.length : ℚ)) / 200 := by
      have hinit : fd * ((S - gs.sum) / S) - ((0 : ℕ) : ℚ) / 200 ≤ 0 := by
        rw [hgssum]
        simp
      have h := lineDiscountsAux_excess hpos hfd0 hfdS gs 0 0 hgs0 hinit
      rw [hEdef, hldsaux]
      push_cast at h
      push_cast
      linarith
    have hA : ((gs.zip lds).map (fun p => lineAfter p.1 p.2)).sum = S - r2 fd + E := by
      have h1 : ((gs.zip lds).map (fun p => lineAfter p.1 p.2))
          = ((gs.zip lds).map (fun p => (p.1 - p.2) + max 0 (p.2 - p.1))) :=
        map_congr_mem _ _ _ (fun p _ => max0_decomp p.1 p.2)
      rw [h1, sum_map_add2, sum_zip_sub gs lds hlen.symm, hsumlds, hgssum, hEdef]
    cases incl with
    | false =>
      simp only [Bool.false_eq_true, if_false]
      have hfold : (gs.zip lds).foldl
          (fun a p => a + lineTotalContrib rate false p.1 p.2) 0
          = ((gs.zip lds).map (fun p => lineTotalContrib rate false p.1 p.2)).sum := by
        rw [foldl_addf_eq_sum, zero_add]
      rw [hfold]
      set M1 := ((gs.zip lds).map (fun p => lineTotalContrib rate false p.1 p.2)).sum
        with hM1
      set X := r2 M1 with hX
      set Y := r2 (S - fd + r2 ((S - fd) * rate)) with hY
      set M2 := (S - r2 fd + E) * (1 + rate) with hM2
      set M3 := (S - fd) * (1 + rate) with hM3
      have e1 : |X - M1| ≤ 1/200 := abs_r2_sub_le M1
      have e2 : |M1 - M2| ≤ (gs.length : ℚ) * (1/100) := by
        have h := abs_sum_sub_le (gs.zip lds)
          (fun p => lineTotalContrib rate false p.1 p.2)
          (fun p => lineAfter p.1 p.2 * (1 + rate)) (1/100)
          (fun p _ => contrib_err_excl rate p.1 p.2)
        rw [hziplen] at h
        have h2 : ((gs.zip lds).map (fun p => lineAfter p.1 p.2 * (1 + rate))).sum
            = M2 := by
          rw [sum_map_mul_const, hA, hM2]
        rw [hM1, ← h2]
        exact h
      have e3 : |M2 - M3| ≤ (1 + rate) * (1/200 + E) := by
        have hdec : M2 - M3 = (1 + rate) * ((fd - r2 fd) + E) := by
          rw [hM2, hM3]
          ring
        rw [hdec, abs_mul, abs_of_nonneg (by linarith : (0:ℚ) ≤ 1 + rate)]
        apply mul_le_mul_of_nonneg_left ?_ (by linarith)
        refine le_trans (abs_add _ _) ?_
        have h4 : |fd - r2 fd| ≤ 1/200 := by
          rw [abs_sub_comm]
          exact abs_r2_sub_le fd
        rw [abs_of_nonneg hE0]
        linarith
      have e4 : |M3 - Y| ≤ 1/100 := by
        rw [abs_sub_comm, hY, hM3]
        exact two_round_err (S - fd) rate
      have hchain : |X - Y| ≤ |X - M1| + |M1 - M2| + |M2 - M3| + |M3 - Y| := by
        have t1 := abs_sub_le X M1 Y
        have t2 := abs_sub_le M1 M2 Y
        have t3 := abs_sub_le M2 M3 Y
        linarith
      have hscale : (1 + rate) * (1/200 + E)
          ≤ (1 + rate) * (1/200 + 2 * (gs.length : ℚ) / 200) :=
        mul_le_mul_of_nonneg_left (by linarith) (by linarith)
      have hfinal : 1/200 + (gs.length : ℚ) * (1/100)
          + (1 + rate) * (1/200 + 2 * (gs.length : ℚ) / 200) + 1/100
          ≤ (1 + rate) * (2 * (gs.length : ℚ) + 2) / 100 := by
        nlinarith [mul_nonneg hr0
          (show (0:ℚ) ≤ (gs.length : ℚ) / 100 + 3/200 by positivity)]
      rw [hlen2]
      linarith
    | true =>
      simp only [if_true]
      have hfold : (gs.zip lds).foldl
          (fun a p => a + lineTotalContrib rate true p.1 p.2) 0
          = ((gs.zip lds).map (fun p => lineTotalContrib rate true p.1 p.2)).sum := by
        rw [foldl_addf_eq_sum, zero_add]
      rw [hfold]
      set M1 := ((gs.zip lds).map (fun p => lineTotalContrib rate true p.1 p.2)).sum
        with hM1
      set X := r2 M1 with hX
      set Y := r2 (S - fd) with hY
      set A := S - r2 fd + E with hA2
      have e1 : |X - M1| ≤ 1/200 := abs_r2_sub_le M1
      have e2 : |M1 - A| ≤ (gs.length : ℚ) * (1/200) := by
        have h := abs_sum_sub_le (gs.zip lds)
          (fun p => lineTotalContrib rate true p.1 p.2)
          (fun p => lineAfter p.1 p.2) (1/200)
          (fun p _ => contrib_err_incl rate p.1 p.2)
        rw [hziplen] at h
        rw [hM1, ← hA]
        exact h
      have e3 : |A - (S - fd)| ≤ 1/200 + E := by
        have hdec : A - (S - fd) = (fd - r2 fd) + E := by
          rw [hA2]
          ring
        rw [hdec]
        refine le_trans (abs_add _ _) ?_
        have h4 : |fd - r2 fd| ≤ 1/200 := by
          rw [abs_sub_comm]
          exact abs_r2_sub_le fd
        rw [abs_of_nonneg hE0]
        linarith
      have e4 : |(S - fd) - Y| ≤ 1/200 := by
        rw [abs_sub_comm, hY]
        exact abs_r2_sub_le (S - fd)
      have hchain : |X - Y| ≤ |X - M1| + |M1 - A| + |A - (S - fd)| + |(S - fd) - Y| := by
        have t1 := abs_sub_le X M1 Y
        have t2 := abs_sub_le M1 A Y
        have t3 := abs_sub_le A (S - fd) Y
        linarith
      have hfinal : 1/200 + (gs.length : ℚ) * (1/200)
          + (1/200 + 2 * (gs.length : ℚ) / 200) + 1/200
          ≤ (1 + rate) * (2 * (gs.length : ℚ) + 2) / 100 := by
        nlinarith [mul_nonneg hr0
          (show (0:ℚ) ≤ (2 * (gs.length : ℚ) + 2) / 100 by positivity)]
      rw [hlen2]
      linarith

/-- C9 counterexample: one line of 10.005, flat discount 0.005, 900% tax,
exclusive prices.  Line mode rounds the discount share to 0.01 and the
per-line tax to cents, giving total 99.96; total mode gives 100.00.  The
divergence 0.04 exceeds the claimed bound 0.01 × numberOfLines = 0.01. -/
theorem C9_counterexample :
    ¬ (|(calculateInvoiceTotals [⟨1, 2001/200⟩] 0 (1/200) 900 false RoundingMode.line).total
        - (calculateInvoiceTotals [⟨1, 2001/200⟩] 0 (1/200) 900 false RoundingMode.total).total|
        ≤ (1/100) * (([(⟨1, 2001/200⟩ : Item)].length : ℚ))) := by
  have h1 : (calculateInvoiceTotals [⟨1, 2001/200⟩] 0 (1/200) 900 false RoundingMode.line).total
      = 2499/25 := by
    norm_num [calculateInvoiceTotals, subtotalQ, finalDiscount, lineDiscounts,
      lineDiscountsAux, lineTaxContrib, lineTotalContrib, lineAfter, invoiceNet,
      List.zip, r2, jsRound]
  have h2 : (calculateInvoiceTotals [⟨1, 2001/200⟩] 0 (1/200) 900 false RoundingMode.total).total
      = 100 := by
    have hne : (RoundingMode.total = RoundingMode.line) = False := by simp
    norm_num [calculateInvoiceTotals, subtotalQ, finalDiscount, lineDiscounts,
      lineDiscountsAux, lineTaxContrib, lineTotalContrib, lineAfter, invoiceNet,
      List.zip, r2, jsRound, hne]
  rw [h1, h2]
  intro hco
  rw [show (2499:ℚ)/25 - 100 = -(1/25) from by norm_num, abs_neg,
    abs_of_nonneg (by norm_num : (0:ℚ) ≤ 1/25)] at hco
  norm_num at hco

/-- Witness for the amended C9 at two whole-cent lines with a 10% tax. -/
theorem C9_witness :
    |(calculateInvoiceTotals [⟨1, 100⟩, ⟨1, 50⟩] 0 20 10 false RoundingMode.line).total
      - (calculateInvoiceTotals [⟨1, 100⟩, ⟨1, 50⟩] 0 20 10 false RoundingMode.total).total|
      ≤ (1 + max 0 10 / 100) * (2 * ([(⟨1, 100⟩ : Item), ⟨1, 50⟩].length) + 2) / 100 :=
  C9_rounding_divergence [⟨1, 100⟩, ⟨1, 50⟩] 0 20 10 false
    (by intro it hit; fin_cases hit <;> norm_num)
